import Mathlib

/-!
Verification of the QuasarTest persistence layer (`src/models/data_models.py`)
and analytics engine (`src/utils/predict.py`).

The database is shallowly embedded: a table is a Lean list of row structures,
kept in primary-key order (the order in which SQLite scans rows).  A SQLAlchemy
`ColumnElement` predicate is embedded as `Except DBErr (row → Bool)`: a
well-formed predicate is a boolean function on rows, while a malformed one
raises a storage error when the statement is built.  Timestamps are integers
measured in days, so `timedelta(days = d)` is subtraction of `d`.
-/

namespace Quasar

/-- Row of the `users` table: `id` (primary key), `username`, `email`,
`registration_date` (a timestamp, in days). -/
structure UserRow where
  id : Nat
  username : String
  email : String
  registration_date : ℤ
deriving DecidableEq

/-- Row of the `activities` table: `id` (primary key), `user_id`
(reference to a user), `date` (a timestamp, in days). -/
structure ActivityRow where
  id : Nat
  user_id : Nat
  date : ℤ
deriving DecidableEq

/-- The whole database: the two tables, each in primary-key scan order. -/
structure DB where
  users : List UserRow
  activities : List ActivityRow
deriving DecidableEq

/-- Storage-level exceptions of the embedding.  `integrityError` is
`sqlalchemy.exc.IntegrityError` (the only class the source catches);
`operationalError` and `argumentError` stand for the other storage errors a
statement can raise (e.g. from a malformed predicate). -/
inductive DBErr where
  | integrityError
  | operationalError
  | argumentError
deriving DecidableEq

/-- A `ColumnElement` as handed to `filter`: either it compiles to a row
predicate, or building/executing the statement raises a storage error. -/
def ColumnPred (α : Type) : Type := Except DBErr (α → Bool)

/-- Embedding of `Base.get` (data_models.py lines 42-58): run the filtered
query and return the first row (`session.scalar`); `except exc.IntegrityError`
falls through to `return None`; any other exception propagates. -/
def Base.get {α : Type} (rows : List α) (P : ColumnPred α) : Except DBErr (Option α) :=
  match P with
  | Except.ok p => Except.ok ((rows.filter p).head?)
  | Except.error DBErr.integrityError => Except.ok none
  | Except.error e => Except.error e

/-- Embedding of `Base.delete` (lines 76-92): delete all rows matching the
predicate, returning `deleted > 0`; `except exc.IntegrityError` returns
`False`; any other exception propagates. -/
def Base.delete {α : Type} (rows : List α) (P : ColumnPred α) :
    Except DBErr (Bool × List α) :=
  match P with
  | Except.ok p =>
      Except.ok (decide (0 < (rows.filter p).length), rows.filter (fun x => !(p x)))
  | Except.error DBErr.integrityError => Except.ok (false, rows)
  | Except.error e => Except.error e

/-- SQLite assigns a fresh primary key as one more than the largest key in
the table (rowid assignment for an INSERT that does not give an id). -/
def nextId (ids : List Nat) : Nat := ids.foldr max 0 + 1

/-- Embedding of `Base.add` as inherited by `User` (lines 26-40): insert the
instance; a duplicate explicit `id` makes `commit` raise `IntegrityError`,
which is caught and turned into `None` with the session rolled back; on
success the refreshed instance (with its assigned id) is returned. -/
def User.add (db : DB) (username email : String) (registration_date : ℤ)
    (oid : Option Nat) : Option UserRow × DB :=
  let i := oid.getD (nextId (db.users.map (·.id)))
  if db.users.any (fun u => u.id == i) then (none, db)
  else
    let row : UserRow := ⟨i, username, email, registration_date⟩
    (some row, { db with users := db.users ++ [row] })

/-- The body of `Base.add` applied to the `activities` table (what
`super().add()` would do for an `Activity` instance). -/
def Base.addActivity (acts : List ActivityRow) (user_id : Nat) (date : ℤ)
    (oid : Option Nat) : Option ActivityRow × List ActivityRow :=
  let i := oid.getD (nextId (acts.map (·.id)))
  if acts.any (fun a => a.id == i) then (none, acts)
  else
    let row : ActivityRow := ⟨i, user_id, date⟩
    (some row, acts ++ [row])

/-- Embedding of `Activity.add` (lines 277-293): if
`session.query(User).filter(User.id == self.user_id).scalar()` is `None`
(no such user) return `None` without touching storage; otherwise run the
same insertion code as `Base.add`. -/
def Activity.add (db : DB) (user_id : Nat) (date : ℤ) (oid : Option Nat) :
    Option ActivityRow × DB :=
  if ((db.users.filter (fun u => u.id == user_id)).head?).isNone then (none, db)
  else
    let i := oid.getD (nextId (db.activities.map (·.id)))
    if db.activities.any (fun a => a.id == i) then (none, db)
    else
      let row : ActivityRow := ⟨i, user_id, date⟩
      (some row, { db with activities := db.activities ++ [row] })

/-- Embedding of the `User.delete` override (lines 221-239), on the
exception-free path: collect the ids of users matching the predicate, delete
the activities whose `Activity.id` (sic: the source filters on
`Activity.id.in_(ids)`, not `Activity.user_id`) lies in that set, then delete
the matching users, and return whether at least one user row was removed. -/
def User.delete (db : DB) (p : UserRow → Bool) : Bool × DB :=
  let ids := (db.users.filter p).map (·.id)
  let acts := db.activities.filter (fun a => !(ids.contains a.id))
  let deleted := (db.users.filter p).length
  (decide (0 < deleted),
   { users := db.users.filter (fun u => !(p u)), activities := acts })

/-- Embedding of `Base.pagination` (lines 120-137): order by the primary key
ascending, skip `page * per_page` rows, return at most `per_page` rows.
Defaults are `page = 0`, `per_page = 10`. -/
def Base.pagination {α : Type} (key : α → Nat) (rows : List α)
    (page : Nat := 0) (per_page : Nat := 10) : List α :=
  (((List.insertionSort (fun a b => key a ≤ key b) rows).drop (page * per_page)).take
    per_page)

/-- The ordering `order_by(char_length(username).desc())` compares rows by
username length, longest first, and nothing else. -/
def byLenDesc (a b : UserRow) : Prop := b.username.length ≤ a.username.length

instance : DecidableRel byLenDesc := fun a b =>
  inferInstanceAs (Decidable (b.username.length ≤ a.username.length))

/-- Embedding of `User.longest_names` (lines 188-202): sort the table
(scanned in id order) by username length descending — the engine's sort is
stable, so rows with equal lengths keep their scan order — and take the first
`top` rows. -/
def User.longest_names (db : DB) (top : Nat := 5) : List UserRow :=
  (List.insertionSort byLenDesc db.users).take top

/-- Embedding of `Activity.get_activity_by_months` (lines 250-275): for each
`i < months`, count the activities of `user_id` whose `date` lies `between`
`now - (i+1)*days_per_m` and `now - i*days_per_m` days; SQL `between` is
inclusive at both ends. -/
def Activity.get_activity_by_months (db : DB) (now : ℤ) (user_id : Nat)
    (months : Nat := 12) (days_per_m : ℤ := 30) : List Nat :=
  (List.range months).map (fun (i : ℕ) =>
    ((db.activities.filter (fun a =>
        decide (now - ((i : ℤ) + 1) * days_per_m ≤ a.date) &&
        decide (a.date ≤ now - (i : ℤ) * days_per_m))).filter
      (fun a => a.user_id == user_id)).length)

end Quasar

namespace Predict

open Finset

/-- Sum of the indices `0, …, n-1` (first column of the design matrix dotted
with itself is built from these). -/
def S1 (l : List ℚ) : ℚ := ∑ i ∈ Finset.range l.length, (i : ℚ)

/-- Sum of the squared indices. -/
def S2 (l : List ℚ) : ℚ := ∑ i ∈ Finset.range l.length, (i : ℚ) ^ 2

/-- Sum of the observed counts. -/
def Sy (l : List ℚ) : ℚ := ∑ i ∈ Finset.range l.length, l.getD i 0

/-- Sum of index times count. -/
def Siy (l : List ℚ) : ℚ := ∑ i ∈ Finset.range l.length, (i : ℚ) * l.getD i 0

/-- Determinant of the normal matrix `AᵀA` for the design matrix `A` whose
rows are `(i, 1)`. -/
def Dd (l : List ℚ) : ℚ := (l.length : ℚ) * S2 l - S1 l ^ 2

/-- Slope of the least-squares line, from `(AᵀA)⁻¹Aᵀy`. -/
def slope (l : List ℚ) : ℚ := ((l.length : ℚ) * Siy l - S1 l * Sy l) / Dd l

/-- Intercept of the least-squares line, from `(AᵀA)⁻¹Aᵀy`. -/
def intercept (l : List ℚ) : ℚ := (S2 l * Sy l - S1 l * Siy l) / Dd l

/-- Embedding of `predict_activity` (predict.py lines 4-17): build the
design matrix `A` with rows `(i, 1)`, compute `b = pinv(A) · y`, and return
`(n, 1) · b`.  `np.linalg.pinv` is modelled by its mathematical semantics,
the minimum-norm least-squares solution, which splits on the rank of `A`:
for `n = 0` the pseudo-inverse is the empty map, so `b = (0, 0)` and the
result is `0`; for `n = 1`, `A = (0 1)` has full row rank, so
`b = Aᵀ(AAᵀ)⁻¹y = (0, y₀)` and the result is `y₀`; for `n ≥ 2`, `A` has full
column rank, so `b = (AᵀA)⁻¹Aᵀy`, the solution of the normal equations. -/
def predict_activity (l : List ℚ) : ℚ :=
  if l.length = 0 then 0
  else if l.length = 1 then l.headD 0
  else (l.length : ℚ) * slope l + intercept l

/-- Clamping into `[0, 1]`: values below `0` become `0`, values above `1`
become `1`. -/
def clamp01 (q : ℚ) : ℚ := if q < 0 then 0 else if 1 < q then 1 else q

/-- Embedding of `activity_prob` (predict.py lines 20-35).  On the empty
list, `last_activities[0]` raises `IndexError`, embedded as `none`.
Otherwise `prob` is `count / last_activities[0]` when the head is nonzero
(Python truthiness of an int) and `1` when it is zero, then floored at `0`
and capped at `1`. -/
def activity_prob : List ℚ → Option ℚ
  | [] => none
  | c0 :: rest =>
    let count := predict_activity (c0 :: rest)
    let prob1 : ℚ := if c0 ≠ 0 then count / c0 else 1
    let prob2 : ℚ := if prob1 < 0 then 0 else prob1
    let prob3 : ℚ := if 1 < prob2 then 1 else prob2
    some prob3

/-- Sum of squared residuals of the line with slope `s` and intercept `c`
against the points `(i, l[i])`. -/
def SSE (l : List ℚ) (s c : ℚ) : ℚ :=
  ∑ i ∈ Finset.range l.length, (s * (i : ℚ) + c - l.getD i 0) ^ 2

end Predict

namespace Quasar

/-- Stated from the spec's words, for comparison with the source: window `i`
is the half-open range `(now - (i+1)*daysPerMonth, now - i*daysPerMonth]`
restricted to events owned by `userId`. -/
def countByMonthSpecHalfOpen (db : DB) (now : ℤ) (user_id : Nat)
    (months : Nat) (days_per_m : ℤ) : List Nat :=
  (List.range months).map (fun (i : ℕ) =>
    db.activities.countP (fun a =>
      (a.user_id == user_id) &&
      decide (now - ((i : ℤ) + 1) * days_per_m < a.date) &&
      decide (a.date ≤ now - (i : ℤ) * days_per_m)))

/-- Stated from the spec's words: order by username length descending with
ties broken by ascending `id`. -/
def byLenDescThenId (a b : UserRow) : Prop :=
  b.username.length < a.username.length ∨
    (b.username.length = a.username.length ∧ a.id ≤ b.id)

instance : DecidableRel byLenDescThenId := fun a b =>
  inferInstanceAs (Decidable (b.username.length < a.username.length ∨
    (b.username.length = a.username.length ∧ a.id ≤ b.id)))

instance : IsTotal UserRow byLenDesc :=
  ⟨fun a b => (Nat.le_total a.username.length b.username.length).symm⟩

instance : IsTrans UserRow byLenDesc :=
  ⟨fun _ _ _ h1 h2 => Nat.le_trans h2 h1⟩

instance : IsTotal UserRow byLenDescThenId := by
  constructor
  intro a b
  rcases Nat.lt_trichotomy b.username.length a.username.length with h | h | h
  · exact Or.inl (Or.inl h)
  · rcases Nat.le_total a.id b.id with h2 | h2
    · exact Or.inl (Or.inr ⟨h, h2⟩)
    · exact Or.inr (Or.inr ⟨h.symm, h2⟩)
  · exact Or.inr (Or.inl h)

instance : IsTrans UserRow byLenDescThenId := by
  constructor
  intro a b c h1 h2
  rcases h1 with h1 | ⟨h1, h1'⟩ <;> rcases h2 with h2 | ⟨h2, h2'⟩
  · exact Or.inl (h2.trans h1)
  · exact Or.inl (h2 ▸ h1)
  · exact Or.inl (h1 ▸ h2)
  · exact Or.inr ⟨h2.trans h1, h1'.trans h2'⟩

end Quasar

namespace Quasar

/-- C1: deleting the user with id 1 (who owns the activity with id 2) removes
the user but leaves the activity behind, because the source filters the
activity deletion on `Activity.id.in_(ids)` instead of `Activity.user_id`;
one activity referencing the deleted user's former id remains. -/
theorem user_delete_leaves_orphan_activity :
    User.delete ⟨[⟨1, "a", "b", 0⟩], [⟨2, 1, 0⟩]⟩ (fun u => u.id == 1) =
      (true, ⟨[], [⟨2, 1, 0⟩]⟩) ∧
    ((User.delete ⟨[⟨1, "a", "b", 0⟩], [⟨2, 1, 0⟩]⟩
        (fun u => u.id == 1)).2.activities.countP (fun a => a.user_id == 1)) = 1 := by
  decide

/-- C2: `Activity.add` returns `None` and leaves the database unchanged when
no user carries `user_id`, and otherwise behaves exactly as the inherited
`Base.add` on the activities table. -/
theorem activity_add_referential_guard :
    (∀ (db : DB) (uid : Nat) (d : ℤ) (oid : Option Nat),
      (∀ u ∈ db.users, u.id ≠ uid) → Activity.add db uid d oid = (none, db)) ∧
    (∀ (db : DB) (uid : Nat) (d : ℤ) (oid : Option Nat),
      (∃ u ∈ db.users, u.id = uid) →
      Activity.add db uid d oid =
        ((Base.addActivity db.activities uid d oid).1,
         { db with activities := (Base.addActivity db.activities uid d oid).2 })) := by
  constructor
  · intro db uid d oid h
    have hf : db.users.filter (fun u => u.id == uid) = [] := by
      rw [List.filter_eq_nil_iff]
      intro u hu
      simpa using h u hu
    simp [Activity.add, hf]
  · intro db uid d oid h
    obtain ⟨u, hu, he⟩ := h
    have hmem : u ∈ db.users.filter (fun x => x.id == uid) :=
      List.mem_filter.mpr ⟨hu, by simp [he]⟩
    have hne : db.users.filter (fun x => x.id == uid) ≠ [] :=
      List.ne_nil_of_mem hmem
    have hcond : ((db.users.filter (fun x => x.id == uid)).head?).isNone = false := by
      cases hh : (db.users.filter (fun x => x.id == uid)).head? with
      | none => exact absurd (List.head?_eq_none_iff.mp hh) hne
      | some v => rfl
    simp only [Activity.add, Base.addActivity, hcond, Bool.false_eq_true, if_false]
    split <;> rfl

/-- C2 witness: on a database with user 1, adding an activity for user 2
fails and changes nothing, while adding one for user 1 behaves as the base
insertion. -/
theorem activity_add_referential_guard_witness :
    (∀ u ∈ ([⟨1, "a", "b", 0⟩] : List UserRow), u.id ≠ 2) ∧
    Activity.add ⟨[⟨1, "a", "b", 0⟩], []⟩ 2 5 none = (none, ⟨[⟨1, "a", "b", 0⟩], []⟩) ∧
    (∃ u ∈ ([⟨1, "a", "b", 0⟩] : List UserRow), u.id = 1) ∧
    Activity.add ⟨[⟨1, "a", "b", 0⟩], []⟩ 1 5 none =
      ((Base.addActivity [] 1 5 none).1,
       { users := [⟨1, "a", "b", 0⟩], activities := (Base.addActivity [] 1 5 none).2 }) :=
  ⟨by decide,
   activity_add_referential_guard.1 ⟨[⟨1, "a", "b", 0⟩], []⟩ 2 5 none (by decide),
   ⟨⟨1, "a", "b", 0⟩, by decide, rfl⟩,
   activity_add_referential_guard.2 ⟨[⟨1, "a", "b", 0⟩], []⟩ 1 5 none
     ⟨⟨1, "a", "b", 0⟩, by decide, rfl⟩⟩

/-- C5 counterexample: `Base.get` with a malformed predicate (one whose
statement raises `ArgumentError`) propagates the storage error instead of
returning the "not found" value `None`. -/
theorem base_get_malformed_predicate_propagates :
    Base.get [(⟨1, "a", "b", 0⟩ : UserRow)] (Except.error DBErr.argumentError) =
      Except.error DBErr.argumentError ∧
    Base.get [(⟨1, "a", "b", 0⟩ : UserRow)] (Except.error DBErr.argumentError) ≠
      Except.ok none := by
  refine ⟨rfl, ?_⟩
  simp [Base.get]

/-- C5 amended: the persistence operations recover only from
`IntegrityError`, returning their defined failure values (`None`, `False`)
in that case; every other storage error — such as the one raised by a
malformed predicate — propagates out of `get` and `delete`. -/
theorem base_ops_catch_only_integrity {α : Type} (rows : List α) (p : α → Bool)
    (e : DBErr) :
    Base.get rows (Except.ok p) = Except.ok ((rows.filter p).head?) ∧
    Base.get rows (Except.error DBErr.integrityError) = Except.ok none ∧
    Base.delete rows (Except.ok p) =
      Except.ok (decide (0 < (rows.filter p).length), rows.filter (fun x => !(p x))) ∧
    Base.delete rows (Except.error DBErr.integrityError) = Except.ok (false, rows) ∧
    (e ≠ DBErr.integrityError →
      Base.get rows (Except.error e) = Except.error e ∧
      Base.delete rows (Except.error e) = Except.error e) := by
  refine ⟨rfl, rfl, rfl, rfl, fun he => ?_⟩
  cases e with
  | integrityError => exact absurd rfl he
  | operationalError => exact ⟨rfl, rfl⟩
  | argumentError => exact ⟨rfl, rfl⟩

/-- C5 amended witness: instantiation at a one-row table and the
`OperationalError` class. -/
theorem base_ops_catch_only_integrity_witness :
    DBErr.operationalError ≠ DBErr.integrityError ∧
    (Base.get [(⟨1, "a", "b", 0⟩ : UserRow)] (Except.error DBErr.operationalError) =
        Except.error DBErr.operationalError ∧
      Base.delete [(⟨1, "a", "b", 0⟩ : UserRow)] (Except.error DBErr.operationalError) =
        Except.error DBErr.operationalError) :=
  ⟨by decide,
   (base_ops_catch_only_integrity [(⟨1, "a", "b", 0⟩ : UserRow)] (fun _ => true)
      DBErr.operationalError).2.2.2.2 (by decide)⟩

/-- C8: if no user carries the explicit id `i`, creating a user with that id
succeeds and returns the refreshed instance; a second create with the same
explicit id returns `None` and leaves the table unchanged, and the first
user remains retrievable with all its fields unchanged. -/
theorem user_add_duplicate_id (db : DB) (un1 em1 : String) (d1 : ℤ) (i : Nat)
    (h : ∀ u ∈ db.users, u.id ≠ i) :
    User.add db un1 em1 d1 (some i) =
      (some ⟨i, un1, em1, d1⟩, { db with users := db.users ++ [⟨i, un1, em1, d1⟩] }) ∧
    (∀ (un2 em2 : String) (d2 : ℤ),
      User.add { db with users := db.users ++ [⟨i, un1, em1, d1⟩] } un2 em2 d2 (some i) =
        (none, { db with users := db.users ++ [⟨i, un1, em1, d1⟩] })) ∧
    Base.get (db.users ++ [⟨i, un1, em1, d1⟩]) (Except.ok (fun u => u.id == i)) =
      Except.ok (some (⟨i, un1, em1, d1⟩ : UserRow)) := by
  have hany : db.users.any (fun u => u.id == i) = false := by
    simp only [List.any_eq_false]
    intro u hu
    simpa using h u hu
  have hfilter : db.users.filter (fun u => u.id == i) = [] := by
    rw [List.filter_eq_nil_iff]
    intro u hu
    simpa using h u hu
  refine ⟨?_, ?_, ?_⟩
  · simp [User.add, hany]
  · intro un2 em2 d2
    simp [User.add]
  · simp [Base.get, List.filter_append, hfilter]

/-- C8 witness: concrete run with an empty table and explicit id 2. -/
theorem user_add_duplicate_id_witness :
    (∀ u ∈ ([] : List UserRow), u.id ≠ 2) ∧
    (User.add ⟨[], []⟩ "c" "d" 0 (some 2) =
        (some ⟨2, "c", "d", 0⟩, { users := [⟨2, "c", "d", 0⟩], activities := [] }) ∧
      (∀ (un2 em2 : String) (d2 : ℤ),
        User.add { users := [] ++ [⟨2, "c", "d", 0⟩], activities := [] } un2 em2 d2 (some 2) =
          (none, { users := [] ++ [⟨2, "c", "d", 0⟩], activities := [] })) ∧
      Base.get ([] ++ [⟨2, "c", "d", 0⟩]) (Except.ok (fun u => u.id == 2)) =
        Except.ok (some (⟨2, "c", "d", 0⟩ : UserRow))) :=
  ⟨by decide, user_add_duplicate_id ⟨[], []⟩ "c" "d" 0 2 (by decide)⟩

end Quasar

namespace Predict

/-- C10: on the empty bucket sequence, `predict_activity` returns `0` (the
pseudo-inverse of the empty design matrix is the zero map), while
`activity_prob` fails when indexing `last_activities[0]` (an `IndexError`,
embedded as `none`): the two analytics functions disagree on whether empty
input is an error. -/
theorem predict_empty_vs_prob_empty :
    predict_activity [] = 0 ∧ activity_prob [] = none := by
  exact ⟨by simp [predict_activity], rfl⟩

end Predict

namespace Quasar

/-- C3 counterexample: an activity of user 7 dated exactly 30 days ago, with
`months = 2` and `daysPerMonth = 30`, is counted by the source in both
buckets, `[1, 1]`, whereas the claimed half-open windows put it in exactly
one bucket, `[0, 1]`. -/
theorem boundary_event_counted_in_two_buckets :
    Activity.get_activity_by_months ⟨[], [⟨1, 7, -30⟩]⟩ 0 7 2 30 = [1, 1] ∧
    countByMonthSpecHalfOpen ⟨[], [⟨1, 7, -30⟩]⟩ 0 7 2 30 = [0, 1] ∧
    ([1, 1] : List Nat) ≠ [0, 1] := by
  decide

/-- C3 amended: `get_activity_by_months` returns `months` counts; the count
at index `i` is the number of activities of the user whose date lies in the
closed interval `[now - (i+1)*daysPerMonth, now - i*daysPerMonth]`, inclusive
at both ends; consequently an event dated exactly on an interior window
boundary is counted in both adjacent buckets. -/
theorem months_closed_window_counts (db : DB) (now : ℤ) (uid : Nat)
    (months : Nat) (dpm : ℤ) :
    (Activity.get_activity_by_months db now uid months dpm).length = months ∧
    (∀ i, i < months →
      (Activity.get_activity_by_months db now uid months dpm).getD i 0 =
        db.activities.countP (fun a =>
          (a.user_id == uid) &&
          (decide (now - ((i : ℤ) + 1) * dpm ≤ a.date) &&
           decide (a.date ≤ now - (i : ℤ) * dpm)))) ∧
    (∀ i a, 0 < i → i < months → 0 ≤ dpm → a ∈ db.activities → a.user_id = uid →
      a.date = now - (i : ℤ) * dpm →
      0 < (Activity.get_activity_by_months db now uid months dpm).getD i 0 ∧
      0 < (Activity.get_activity_by_months db now uid months dpm).getD (i - 1) 0) := by
  have hcount : ∀ i, i < months →
      (Activity.get_activity_by_months db now uid months dpm).getD i 0 =
        db.activities.countP (fun a =>
          (a.user_id == uid) &&
          (decide (now - ((i : ℤ) + 1) * dpm ≤ a.date) &&
           decide (a.date ≤ now - (i : ℤ) * dpm))) := by
    intro i hi
    unfold Activity.get_activity_by_months
    rw [List.getD_eq_getElem?_getD, List.getElem?_map, List.getElem?_range hi]
    simp only [Option.map_some', Option.getD_some]
    rw [List.filter_filter, List.countP_eq_length_filter]
  refine ⟨by simp [Activity.get_activity_by_months], hcount, ?_⟩
  intro i a hi0 him hd hmem huid hdate
  constructor
  · rw [hcount i him, List.countP_pos_iff]
    refine ⟨a, hmem, ?_⟩
    have h1 : now - ((i : ℤ) + 1) * dpm ≤ a.date := by
      have he : now - ((i : ℤ) + 1) * dpm = now - (i : ℤ) * dpm - dpm := by ring
      rw [he, hdate]
      linarith
    have h2 : a.date ≤ now - (i : ℤ) * dpm := le_of_eq hdate
    simp [huid, h1, h2]
  · have him' : i - 1 < months := lt_of_le_of_lt (Nat.sub_le i 1) him
    rw [hcount (i - 1) him', List.countP_pos_iff]
    refine ⟨a, hmem, ?_⟩
    have hcast : (((i - 1 : ℕ)) : ℤ) = (i : ℤ) - 1 := by
      rw [Nat.cast_sub hi0]
      simp
    have h1 : now - (((i - 1 : ℕ) : ℤ) + 1) * dpm ≤ a.date := by
      rw [hcast, hdate]
      have he : (((i : ℤ) - 1) + 1) * dpm = (i : ℤ) * dpm := by ring
      rw [he]
    have h2 : a.date ≤ now - ((i - 1 : ℕ) : ℤ) * dpm := by
      rw [hcast, hdate]
      have he : now - ((i : ℤ) - 1) * dpm = now - (i : ℤ) * dpm + dpm := by ring
      rw [he]
      linarith
    simp [huid, h1, h2]

/-- C3 amended witness: the boundary activity dated 30 days ago is counted
both in bucket 1 and in bucket 0 of a two-month query. -/
theorem months_closed_window_counts_witness :
    ((0 : Nat) < 1 ∧ 1 < 2 ∧ (0 : ℤ) ≤ 30 ∧
      (⟨1, 7, -30⟩ : ActivityRow) ∈ [(⟨1, 7, -30⟩ : ActivityRow)] ∧
      (⟨1, 7, -30⟩ : ActivityRow).user_id = 7 ∧
      (⟨1, 7, -30⟩ : ActivityRow).date = 0 - (1 : ℤ) * 30) ∧
    (0 < (Activity.get_activity_by_months ⟨[], [⟨1, 7, -30⟩]⟩ 0 7 2 30).getD 1 0 ∧
     0 < (Activity.get_activity_by_months ⟨[], [⟨1, 7, -30⟩]⟩ 0 7 2 30).getD (1 - 1) 0) :=
  ⟨⟨by decide, by decide, by decide, by decide, by decide, by decide⟩,
   (months_closed_window_counts ⟨[], [⟨1, 7, -30⟩]⟩ 0 7 2 30).2.2 1 ⟨1, 7, -30⟩
     (by decide) (by decide) (by decide) (by decide) (by decide) (by decide)⟩

end Quasar

namespace Predict

/-- C6: for a nonempty bucket sequence, `activity_prob` returns
`predict_activity / counts[0]` clamped into `[0, 1]` when the first bucket is
nonzero and `1` when it is zero, and the returned value always lies in
`[0, 1]`. -/
theorem activity_prob_clamped (c0 : ℚ) (rest : List ℚ) :
    activity_prob (c0 :: rest) =
      some (if c0 = 0 then 1 else clamp01 (predict_activity (c0 :: rest) / c0)) ∧
    (0 : ℚ) ≤ (if c0 = 0 then 1 else clamp01 (predict_activity (c0 :: rest) / c0)) ∧
    (if c0 = 0 then 1 else clamp01 (predict_activity (c0 :: rest) / c0)) ≤ 1 := by
  have hb : ∀ q : ℚ, 0 ≤ clamp01 q ∧ clamp01 q ≤ 1 := by
    intro q
    unfold clamp01
    split_ifs with h1 h2
    · exact ⟨le_refl 0, zero_le_one⟩
    · exact ⟨zero_le_one, le_refl 1⟩
    · exact ⟨le_of_not_lt h1, le_of_not_lt h2⟩
  refine ⟨?_, ?_, ?_⟩
  · by_cases h : c0 = 0
    · subst h
      simp only [activity_prob]
      norm_num
    · simp only [activity_prob, ne_eq, h, not_false_eq_true, if_true, if_neg h]
      unfold clamp01
      by_cases h1 : predict_activity (c0 :: rest) / c0 < 0
      · simp only [if_pos h1]
        norm_num
      · simp only [if_neg h1]
        norm_num
  · by_cases h : c0 = 0
    · simp [h]
    · simp only [if_neg h]
      exact (hb _).1
  · by_cases h : c0 = 0
    · simp [h]
    · simp only [if_neg h]
      exact (hb _).2

end Predict

namespace Quasar

/-- Rows `page*per, …, page*per + per - 1` of a list are a segment of its
first `page*per + per` rows. -/
theorem seg_subset_take {α : Type} (s : List α) (a per : Nat) :
    ∀ x ∈ (s.drop a).take per, x ∈ s.take (a + per) := by
  intro x hx
  rw [List.take_drop] at hx
  exact List.drop_subset _ _ hx

/-- Two index-disjoint segments of a duplicate-free list share no element. -/
theorem seg_disjoint_of_nodup {α : Type} (s : List α) (hs : s.Nodup)
    (a b per : Nat) (hab : a + per ≤ b) :
    ∀ x ∈ (s.drop a).take per, x ∉ (s.drop b).take per := by
  intro x hx1 hx2
  have h1 : x ∈ s.take (a + per) := seg_subset_take s a per x hx1
  have h1b : x ∈ s.take b := by
    have he : (s.take b).take (a + per) = s.take (a + per) := by
      rw [List.take_take]
      rw [min_eq_left hab]
    refine List.take_subset (a + per) (s.take b) ?_
    rw [he]
    exact h1
  have h2 : x ∈ s.drop b := List.take_subset _ _ hx2
  have hsn : (s.take b ++ s.drop b).Nodup := by
    rw [List.take_append_drop]
    exact hs
  exact (List.nodup_append.mp hsn).2.2 h1b h2

/-- Concatenating the first `k` segments of width `per` gives the first
`k*per` rows. -/
theorem flatten_take_segments {α : Type} (s : List α) (per : Nat) :
    ∀ k, ((List.range k).map (fun p => (s.drop (p * per)).take per)).flatten =
      s.take (k * per) := by
  intro k
  induction k with
  | zero => simp
  | succ m ih =>
    rw [List.range_succ, List.map_append, List.flatten_append]
    simp only [List.map_cons, List.map_nil, List.flatten_cons, List.flatten_nil,
      List.append_nil]
    rw [ih, Nat.succ_mul, List.take_add]

/-- C9: `pagination` skips the first `page * per_page` rows of the id-ordered
table and returns at most `per_page` rows in ascending id order; pages are
pairwise disjoint and, once `k * per_page` covers the table, the
concatenation of pages `0, …, k-1` in order is exactly the full id-ordered
row set. -/
theorem pagination_spec {α : Type} (key : α → Nat) (rows : List α)
    (hnd : (rows.map key).Nodup) (page per_page : Nat) :
    Base.pagination key rows page per_page =
      ((List.insertionSort (fun a b => key a ≤ key b) rows).drop
        (page * per_page)).take per_page ∧
    Base.pagination key rows = Base.pagination key rows 0 10 ∧
    (Base.pagination key rows page per_page).length ≤ per_page ∧
    (Base.pagination key rows page per_page).Pairwise (fun a b => key a < key b) ∧
    (List.insertionSort (fun a b => key a ≤ key b) rows).take (page * per_page) ++
        Base.pagination key rows page per_page =
      (List.insertionSort (fun a b => key a ≤ key b) rows).take
        (page * per_page + per_page) ∧
    (∀ q, q ≠ page →
      ∀ x ∈ Base.pagination key rows page per_page,
        x ∉ Base.pagination key rows q per_page) ∧
    (∀ k, rows.length ≤ k * per_page →
      ((List.range k).map (fun p => Base.pagination key rows p per_page)).flatten.Perm
          rows ∧
      ((List.range k).map
          (fun p => Base.pagination key rows p per_page)).flatten.Pairwise
        (fun a b => key a < key b)) := by
  haveI : IsTotal α (fun a b => key a ≤ key b) := ⟨fun a b => Nat.le_total _ _⟩
  haveI : IsTrans α (fun a b => key a ≤ key b) := ⟨fun _ _ _ h1 h2 => Nat.le_trans h1 h2⟩
  have hperm : (List.insertionSort (fun a b => key a ≤ key b) rows).Perm rows :=
    List.perm_insertionSort _ rows
  have hsorted := List.sorted_insertionSort (fun a b => key a ≤ key b) rows
  have hrnd : rows.Nodup := List.Nodup.of_map key hnd
  have hsnd : (List.insertionSort (fun a b => key a ≤ key b) rows).Nodup :=
    hperm.nodup_iff.mpr hrnd
  have hknd : ((List.insertionSort (fun a b => key a ≤ key b) rows).map key).Nodup :=
    (hperm.map key).nodup_iff.mpr hnd
  have hne : (List.insertionSort (fun a b => key a ≤ key b) rows).Pairwise
      (fun a b => key a ≠ key b) := List.pairwise_map.mp hknd
  have hlt : (List.insertionSort (fun a b => key a ≤ key b) rows).Pairwise
      (fun a b => key a < key b) :=
    (hsorted.and hne).imp (fun h => lt_of_le_of_ne h.1 h.2)
  have hseg : ∀ p, Base.pagination key rows p per_page =
      ((List.insertionSort (fun a b => key a ≤ key b) rows).drop
        (p * per_page)).take per_page := fun _ => rfl
  have hsub : ∀ p, List.Sublist (Base.pagination key rows p per_page)
      (List.insertionSort (fun a b => key a ≤ key b) rows) := by
    intro p
    rw [hseg]
    exact (List.take_sublist _ _).trans (List.drop_sublist _ _)
  refine ⟨rfl, rfl, ?_, ?_, ?_, ?_, ?_⟩
  · rw [hseg, List.length_take]
    exact min_le_left _ _
  · exact hlt.sublist (hsub page)
  · rw [hseg, List.take_add]
  · intro q hq x hx1 hx2
    rw [hseg] at hx1 hx2
    rcases Nat.lt_or_ge page q with h | h
    · have hle : page * per_page + per_page ≤ q * per_page := by
        calc page * per_page + per_page = (page + 1) * per_page := (Nat.succ_mul _ _).symm
        _ ≤ q * per_page := Nat.mul_le_mul_right _ h
      exact seg_disjoint_of_nodup _ hsnd _ _ _ hle x hx1 hx2
    · have hlt' : q < page := lt_of_le_of_ne h hq
      have hle : q * per_page + per_page ≤ page * per_page := by
        calc q * per_page + per_page = (q + 1) * per_page := (Nat.succ_mul _ _).symm
        _ ≤ page * per_page := Nat.mul_le_mul_right _ hlt'
      exact seg_disjoint_of_nodup _ hsnd _ _ _ hle x hx2 hx1
  · intro k hk
    have hflat : ((List.range k).map (fun p => Base.pagination key rows p per_page)).flatten
        = (List.insertionSort (fun a b => key a ≤ key b) rows).take (k * per_page) :=
      flatten_take_segments _ per_page k
    have hlen : (List.insertionSort (fun a b => key a ≤ key b) rows).length ≤ k * per_page := by
      rw [hperm.length_eq]
      exact hk
    have hfull : ((List.range k).map (fun p => Base.pagination key rows p per_page)).flatten
        = List.insertionSort (fun a b => key a ≤ key b) rows := by
      rw [hflat, List.take_of_length_le hlen]
    constructor
    · rw [hfull]
      exact hperm
    · rw [hfull]
      exact hlt

/-- C9 witness: a concrete two-row table paginated with one row per page. -/
theorem pagination_spec_witness :
    (([⟨2, "a", "a", 0⟩, ⟨1, "b", "b", 0⟩] : List UserRow).map (fun u => u.id)).Nodup ∧
    (Base.pagination (fun u : UserRow => u.id) [⟨2, "a", "a", 0⟩, ⟨1, "b", "b", 0⟩] 0 1 =
        ((List.insertionSort (fun a b : UserRow => a.id ≤ b.id)
          [⟨2, "a", "a", 0⟩, ⟨1, "b", "b", 0⟩]).drop (0 * 1)).take 1 ∧
      Base.pagination (fun u : UserRow => u.id) [⟨2, "a", "a", 0⟩, ⟨1, "b", "b", 0⟩] =
        Base.pagination (fun u : UserRow => u.id) [⟨2, "a", "a", 0⟩, ⟨1, "b", "b", 0⟩] 0 10 ∧
      (Base.pagination (fun u : UserRow => u.id)
          [⟨2, "a", "a", 0⟩, ⟨1, "b", "b", 0⟩] 0 1).length ≤ 1 ∧
      (Base.pagination (fun u : UserRow => u.id)
          [⟨2, "a", "a", 0⟩, ⟨1, "b", "b", 0⟩] 0 1).Pairwise (fun a b => a.id < b.id) ∧
      (List.insertionSort (fun a b : UserRow => a.id ≤ b.id)
          [⟨2, "a", "a", 0⟩, ⟨1, "b", "b", 0⟩]).take (0 * 1) ++
          Base.pagination (fun u : UserRow => u.id) [⟨2, "a", "a", 0⟩, ⟨1, "b", "b", 0⟩] 0 1 =
        (List.insertionSort (fun a b : UserRow => a.id ≤ b.id)
          [⟨2, "a", "a", 0⟩, ⟨1, "b", "b", 0⟩]).take (0 * 1 + 1) ∧
      (∀ q, q ≠ 0 →
        ∀ x ∈ Base.pagination (fun u : UserRow => u.id)
            [⟨2, "a", "a", 0⟩, ⟨1, "b", "b", 0⟩] 0 1,
          x ∉ Base.pagination (fun u : UserRow => u.id)
            [⟨2, "a", "a", 0⟩, ⟨1, "b", "b", 0⟩] q 1) ∧
      (∀ k, ([⟨2, "a", "a", 0⟩, ⟨1, "b", "b", 0⟩] : List UserRow).length ≤ k * 1 →
        ((List.range k).map (fun p => Base.pagination (fun u : UserRow => u.id)
            [⟨2, "a", "a", 0⟩, ⟨1, "b", "b", 0⟩] p 1)).flatten.Perm
          [⟨2, "a", "a", 0⟩, ⟨1, "b", "b", 0⟩] ∧
        ((List.range k).map (fun p => Base.pagination (fun u : UserRow => u.id)
            [⟨2, "a", "a", 0⟩, ⟨1, "b", "b", 0⟩] p 1)).flatten.Pairwise
          (fun a b => a.id < b.id))) :=
  ⟨by decide,
   pagination_spec (fun u : UserRow => u.id) [⟨2, "a", "a", 0⟩, ⟨1, "b", "b", 0⟩]
     (by decide) 0 1⟩

/-- For rows whose ids strictly increase towards the tail, the source's
length-only descending order and the spec's length-then-id order agree on
where a new row is inserted. -/
theorem byLenDesc_iff_of_id_lt (x y : UserRow) (h : x.id < y.id) :
    byLenDesc x y ↔ byLenDescThenId x y := by
  unfold byLenDesc byLenDescThenId
  constructor
  · intro hle
    rcases Nat.lt_or_ge y.username.length x.username.length with hl | hl
    · exact Or.inl hl
    · exact Or.inr ⟨Nat.le_antisymm hle hl, Nat.le_of_lt h⟩
  · intro hr
    rcases hr with hlt | ⟨heq, _⟩
    · exact Nat.le_of_lt hlt
    · exact Nat.le_of_eq heq

/-- Inserting a row whose id is smaller than every id in the target list
gives the same result under both orders. -/
theorem orderedInsert_len_congr (x : UserRow) :
    ∀ l : List UserRow, (∀ y ∈ l, x.id < y.id) →
      List.orderedInsert byLenDesc x l = List.orderedInsert byLenDescThenId x l := by
  intro l
  induction l with
  | nil => intro _; rfl
  | cons b t ih =>
    intro h
    have hb := h b (List.mem_cons_self b t)
    simp only [List.orderedInsert]
    by_cases hc : byLenDesc x b
    · rw [if_pos hc, if_pos ((byLenDesc_iff_of_id_lt x b hb).mp hc)]
    · rw [if_neg hc, if_neg (fun hc' => hc ((byLenDesc_iff_of_id_lt x b hb).mpr hc')),
        ih (fun y hy => h y (List.mem_cons_of_mem b hy))]

/-- On a table scanned in ascending id order, the stable sort by username
length descending equals the sort by the lexicographic length-then-id
order. -/
theorem insertionSort_len_congr :
    ∀ l : List UserRow, l.Pairwise (fun a b => a.id < b.id) →
      List.insertionSort byLenDesc l = List.insertionSort byLenDescThenId l := by
  intro l
  induction l with
  | nil => intro _; rfl
  | cons x t ih =>
    intro h
    rw [List.pairwise_cons] at h
    obtain ⟨h1, h2⟩ := h
    simp only [List.insertionSort]
    rw [ih h2, orderedInsert_len_congr x _ ?_]
    intro y hy
    exact h1 y ((List.perm_insertionSort byLenDescThenId t).mem_iff.mp hy)

/-- C4: on a table in ascending id order, `longest_names` returns the `n`
users with the longest usernames, longest first, and users with equal-length
usernames appear in ascending id order. -/
theorem longest_names_order (db : DB) (n : Nat)
    (h : db.users.Pairwise (fun a b => a.id < b.id)) :
    (User.longest_names db n).Pairwise
      (fun a b => b.username.length ≤ a.username.length) ∧
    (User.longest_names db n).Pairwise
      (fun a b => a.username.length = b.username.length → a.id < b.id) ∧
    (User.longest_names db n).length = min n db.users.length ∧
    ∀ u ∈ db.users, u ∉ User.longest_names db n →
      ∀ v ∈ User.longest_names db n, u.username.length ≤ v.username.length := by
  have hEq : List.insertionSort byLenDesc db.users =
      List.insertionSort byLenDescThenId db.users :=
    insertionSort_len_congr db.users h
  have hperm : (List.insertionSort byLenDescThenId db.users).Perm db.users :=
    List.perm_insertionSort _ _
  have hsorted : List.Sorted byLenDescThenId
      (List.insertionSort byLenDescThenId db.users) :=
    List.sorted_insertionSort _ _
  have hidne : (List.insertionSort byLenDescThenId db.users).Pairwise
      (fun a b => a.id ≠ b.id) := by
    have hmap : (db.users.map (fun u => u.id)).Nodup :=
      List.pairwise_map.mpr (h.imp fun hab => Nat.ne_of_lt hab)
    have hmap2 : ((List.insertionSort byLenDescThenId db.users).map
        (fun u => u.id)).Nodup := ((hperm.map _).nodup_iff).mpr hmap
    exact List.pairwise_map.mp hmap2
  have hout_sub : List.Sublist (User.longest_names db n)
      (List.insertionSort byLenDescThenId db.users) := by
    unfold User.longest_names
    rw [hEq]
    exact List.take_sublist n _
  have hpw : (User.longest_names db n).Pairwise byLenDescThenId :=
    hsorted.sublist hout_sub
  have hpwne : (User.longest_names db n).Pairwise (fun a b => a.id ≠ b.id) :=
    hidne.sublist hout_sub
  refine ⟨?_, ?_, ?_, ?_⟩
  · refine hpw.imp (fun hab => ?_)
    rcases hab with hlt | ⟨heq, _⟩
    · exact Nat.le_of_lt hlt
    · exact Nat.le_of_eq heq
  · refine (hpw.and hpwne).imp (fun hab heq => ?_)
    obtain ⟨hrel, hne⟩ := hab
    rcases hrel with hlt | ⟨_, hle⟩
    · exact absurd heq (Nat.ne_of_gt hlt)
    · exact lt_of_le_of_ne hle hne
  · unfold User.longest_names
    rw [hEq, List.length_take, hperm.length_eq]
  · intro u hu hnotin v hv
    have hu' : u ∈ List.insertionSort byLenDescThenId db.users := hperm.mem_iff.mpr hu
    have hsplit : List.insertionSort byLenDescThenId db.users =
        User.longest_names db n ++
          (List.insertionSort byLenDescThenId db.users).drop n := by
      unfold User.longest_names
      rw [hEq]
      rw [List.take_append_drop]
    have hu2 : u ∈ (List.insertionSort byLenDescThenId db.users).drop n := by
      rcases List.mem_append.mp (hsplit ▸ hu') with h' | h'
      · exact absurd h' hnotin
      · exact h'
    have hrel : byLenDescThenId v u :=
      (List.pairwise_append.mp (hsplit ▸ hsorted)).2.2 v hv u hu2
    rcases hrel with hlt | ⟨heq, _⟩
    · exact Nat.le_of_lt hlt
    · exact Nat.le_of_eq heq

/-- C4 witness: three users in id order, two of whom tie on username
length. -/
theorem longest_names_order_witness :
    ([⟨1, "ab", "x", 0⟩, ⟨2, "cd", "x", 0⟩, ⟨3, "e", "x", 0⟩] : List UserRow).Pairwise
      (fun a b => a.id < b.id) ∧
    ((User.longest_names ⟨[⟨1, "ab", "x", 0⟩, ⟨2, "cd", "x", 0⟩, ⟨3, "e", "x", 0⟩], []⟩
        2).Pairwise (fun a b => b.username.length ≤ a.username.length) ∧
      (User.longest_names ⟨[⟨1, "ab", "x", 0⟩, ⟨2, "cd", "x", 0⟩, ⟨3, "e", "x", 0⟩], []⟩
        2).Pairwise (fun a b => a.username.length = b.username.length → a.id < b.id) ∧
      (User.longest_names ⟨[⟨1, "ab", "x", 0⟩, ⟨2, "cd", "x", 0⟩, ⟨3, "e", "x", 0⟩], []⟩
        2).length =
        min 2 (⟨[⟨1, "ab", "x", 0⟩, ⟨2, "cd", "x", 0⟩, ⟨3, "e", "x", 0⟩], []⟩ : DB).users.length ∧
      ∀ u ∈ (⟨[⟨1, "ab", "x", 0⟩, ⟨2, "cd", "x", 0⟩, ⟨3, "e", "x", 0⟩], []⟩ : DB).users,
        u ∉ User.longest_names ⟨[⟨1, "ab", "x", 0⟩, ⟨2, "cd", "x", 0⟩, ⟨3, "e", "x", 0⟩], []⟩ 2 →
        ∀ v ∈ User.longest_names ⟨[⟨1, "ab", "x", 0⟩, ⟨2, "cd", "x", 0⟩, ⟨3, "e", "x", 0⟩], []⟩ 2,
          u.username.length ≤ v.username.length) :=
  ⟨by decide,
   longest_names_order ⟨[⟨1, "ab", "x", 0⟩, ⟨2, "cd", "x", 0⟩, ⟨3, "e", "x", 0⟩], []⟩ 2
     (by decide)⟩

end Quasar

namespace Predict

/-- Gauss sum over `range n`, stated over the rationals. -/
theorem two_mul_sum_range_id (n : ℕ) :
    2 * (∑ i ∈ Finset.range n, (i : ℚ)) = n * (n - 1) := by
  induction n with
  | zero => simp
  | succ m ih =>
    rw [Finset.sum_range_succ, mul_add, ih]
    push_cast
    ring

/-- Sum of squares over `range n`, stated over the rationals. -/
theorem six_mul_sum_range_sq (n : ℕ) :
    6 * (∑ i ∈ Finset.range n, (i : ℚ) ^ 2) = n * (n - 1) * (2 * n - 1) := by
  induction n with
  | zero => simp
  | succ m ih =>
    rw [Finset.sum_range_succ, mul_add, ih]
    push_cast
    ring

/-- Closed form of the normal-matrix determinant. -/
theorem twelve_mul_Dd (l : List ℚ) :
    12 * Dd l =
      (l.length : ℚ) ^ 2 * ((l.length : ℚ) - 1) * ((l.length : ℚ) + 1) := by
  have h1 := two_mul_sum_range_id l.length
  have h2 := six_mul_sum_range_sq l.length
  have e1 : S1 l = (l.length : ℚ) * ((l.length : ℚ) - 1) / 2 := by
    rw [S1]
    linarith
  have e2 : S2 l =
      (l.length : ℚ) * ((l.length : ℚ) - 1) * (2 * (l.length : ℚ) - 1) / 6 := by
    rw [S2]
    linarith
  rw [Dd, e1, e2]
  ring

/-- For two or more rows the design matrix has full column rank and the
normal matrix is positive definite. -/
theorem Dd_pos (l : List ℚ) (h : 2 ≤ l.length) : 0 < Dd l := by
  have hD := twelve_mul_Dd l
  have hn : (2 : ℚ) ≤ (l.length : ℚ) := by exact_mod_cast h
  have h0 : (0 : ℚ) < (l.length : ℚ) := by linarith
  have h1 : (0 : ℚ) < (l.length : ℚ) - 1 := by linarith
  have h2 : (0 : ℚ) < (l.length : ℚ) + 1 := by linarith
  have h3 : (0 : ℚ) < (l.length : ℚ) ^ 2 := pow_pos h0 2
  have h4 : 0 < 12 * Dd l := by
    rw [hD]
    exact mul_pos (mul_pos h3 h1) h2
  linarith

/-- First normal equation: the residuals of the fitted line sum to zero. -/
theorem sum_residuals_eq_zero (l : List ℚ) (h : Dd l ≠ 0) :
    ∑ i ∈ Finset.range l.length,
      (slope l * (i : ℚ) + intercept l - l.getD i 0) = 0 := by
  have expand : ∑ i ∈ Finset.range l.length,
      (slope l * (i : ℚ) + intercept l - l.getD i 0)
      = slope l * S1 l + (l.length : ℚ) * intercept l - Sy l := by
    rw [Finset.sum_sub_distrib, Finset.sum_add_distrib, ← Finset.mul_sum,
      Finset.sum_const, Finset.card_range, nsmul_eq_mul, S1, Sy]
  have hD : (l.length : ℚ) * S2 l - S1 l ^ 2 ≠ 0 := by
    simpa [Dd] using h
  rw [expand]
  simp only [slope, intercept, Dd]
  field_simp
  ring

/-- Second normal equation: the residuals are orthogonal to the index
column. -/
theorem sum_residuals_mul_index_eq_zero (l : List ℚ) (h : Dd l ≠ 0) :
    ∑ i ∈ Finset.range l.length,
      (slope l * (i : ℚ) + intercept l - l.getD i 0) * (i : ℚ) = 0 := by
  have hpt : ∀ i ∈ Finset.range l.length,
      (slope l * (i : ℚ) + intercept l - l.getD i 0) * (i : ℚ)
      = slope l * (i : ℚ) ^ 2 + intercept l * (i : ℚ) - (i : ℚ) * l.getD i 0 := by
    intro i _
    ring
  have expand : ∑ i ∈ Finset.range l.length,
      (slope l * (i : ℚ) + intercept l - l.getD i 0) * (i : ℚ)
      = slope l * S2 l + intercept l * S1 l - Siy l := by
    rw [Finset.sum_congr rfl hpt, Finset.sum_sub_distrib, Finset.sum_add_distrib,
      ← Finset.mul_sum, ← Finset.mul_sum, S1, S2, Siy]
  have hD : (l.length : ℚ) * S2 l - S1 l ^ 2 ≠ 0 := by
    simpa [Dd] using h
  rw [expand]
  simp only [slope, intercept, Dd]
  field_simp
  ring

/-- Bias-variance style decomposition of the sum of squared errors around
the fitted line. -/
theorem SSE_decomp (l : List ℚ) (h : Dd l ≠ 0) (s c : ℚ) :
    SSE l s c = SSE l (slope l) (intercept l) +
      ∑ i ∈ Finset.range l.length,
        ((s - slope l) * (i : ℚ) + (c - intercept l)) ^ 2 := by
  have hpt : ∀ i ∈ Finset.range l.length,
      (s * (i : ℚ) + c - l.getD i 0) ^ 2
      = (slope l * (i : ℚ) + intercept l - l.getD i 0) ^ 2
        + ((s - slope l) * (i : ℚ) + (c - intercept l)) ^ 2
        + (2 * (s - slope l)) *
            ((slope l * (i : ℚ) + intercept l - l.getD i 0) * (i : ℚ))
        + (2 * (c - intercept l)) *
            (slope l * (i : ℚ) + intercept l - l.getD i 0) := by
    intro i _
    ring
  unfold SSE
  rw [Finset.sum_congr rfl hpt, Finset.sum_add_distrib, Finset.sum_add_distrib,
    Finset.sum_add_distrib, ← Finset.mul_sum, ← Finset.mul_sum,
    sum_residuals_mul_index_eq_zero l h, sum_residuals_eq_zero l h]
  ring

/-- The fitted line minimises the sum of squared errors. -/
theorem SSE_minimal (l : List ℚ) (h : Dd l ≠ 0) (s c : ℚ) :
    SSE l (slope l) (intercept l) ≤ SSE l s c := by
  rw [SSE_decomp l h s c]
  have hnn : 0 ≤ ∑ i ∈ Finset.range l.length,
      ((s - slope l) * (i : ℚ) + (c - intercept l)) ^ 2 :=
    Finset.sum_nonneg (fun i _ => sq_nonneg _)
  linarith

/-- C7: on any nonempty input, `predict_activity` returns the value at
`x = len(counts)` of a line minimising the sum of squared errors against
the points `(index, count)`, and on a single-element input `[c]` it returns
exactly `c`. -/
theorem predict_extrapolates_least_squares :
    (∀ l : List ℚ, l ≠ [] → ∃ s c : ℚ,
      (∀ s' c' : ℚ, SSE l s c ≤ SSE l s' c') ∧
      predict_activity l = s * (l.length : ℚ) + c) ∧
    (∀ y : ℚ, predict_activity [y] = y) := by
  constructor
  · intro l hl
    rcases l with _ | ⟨y, t⟩
    · exact absurd rfl hl
    rcases t with _ | ⟨y2, t2⟩
    · refine ⟨0, y, ?_, ?_⟩
      · intro s' c'
        have hL : SSE [y] 0 y = 0 := by
          simp [SSE, Finset.sum_range_one]
        have hR : SSE [y] s' c' = (s' * 0 + c' - y) ^ 2 := by
          simp [SSE, Finset.sum_range_one]
        rw [hL, hR]
        positivity
      · simp [predict_activity]
    · have hlen : 2 ≤ (y :: y2 :: t2).length := by
        simp only [List.length_cons]
        omega
      have hD : Dd (y :: y2 :: t2) ≠ 0 := ne_of_gt (Dd_pos _ hlen)
      refine ⟨slope (y :: y2 :: t2), intercept (y :: y2 :: t2),
        fun s' c' => SSE_minimal _ hD s' c', ?_⟩
      unfold predict_activity
      rw [if_neg (by simp), if_neg (by simp)]
      ring
  · intro y
    simp [predict_activity]

/-- C7 witness: instantiation at the two-point input `[3, 5]` and the
single-element input `[7]`. -/
theorem predict_extrapolates_least_squares_witness :
    (([3, 5] : List ℚ) ≠ []) ∧
    ((∃ s c : ℚ, (∀ s' c' : ℚ, SSE [3, 5] s c ≤ SSE [3, 5] s' c') ∧
        predict_activity [3, 5] = s * (([3, 5] : List ℚ).length : ℚ) + c) ∧
      predict_activity [7] = 7) :=
  ⟨List.cons_ne_nil 3 [5],
   predict_extrapolates_least_squares.1 [3, 5] (List.cons_ne_nil 3 [5]),
   predict_extrapolates_least_squares.2 7⟩

end Predict
